import Mathlib

set_option maxHeartbeats 1000000

/-! Shallow embedding of the membership core of `artillery`
(`artillery-core/src/epidemic/member.rs` and
`artillery-core/src/epidemic/cluster_config.rs`), together with proofs about
the reconciliation algorithm, the member total ordering, the state-change
bookkeeping and the configuration constructor. -/

/-- The four protocol states (`ArtilleryMemberState` in member.rs), in the
source's declaration order; the derived Rust `Ord` compares by this order:
Alive < Suspect < Down < Left. -/
inductive ArtilleryMemberState where
  | Alive
  | Suspect
  | Down
  | Left
deriving DecidableEq

/-- Declaration-order rank of a state, reifying the derived Rust `Ord` on
`ArtilleryMemberState`. -/
def ArtilleryMemberState.rank : ArtilleryMemberState → Nat
  | .Alive => 0
  | .Suspect => 1
  | .Down => 2
  | .Left => 3

/-- IPv4 socket address (std `SocketAddrV4`): four octets and a port. -/
structure SocketAddrV4 where
  ip : List Nat
  port : Nat
deriving DecidableEq

/-- IPv6 socket address (std `SocketAddrV6`): eight 16-bit segments, a port,
flow information and a scope id. `flowinfo` is carried in the value but never
printed by `Display`. -/
structure SocketAddrV6 where
  ip : List Nat
  port : Nat
  flowinfo : Nat
  scopeId : Nat
deriving DecidableEq

/-- Either kind of socket address (std `SocketAddr`). -/
inductive SocketAddr where
  | v4 : SocketAddrV4 → SocketAddr
  | v6 : SocketAddrV6 → SocketAddr
deriving DecidableEq

def strEmpty : String := ""

def strDot : String := "."

def strColon : String := ":"

def strLBrack : String := "["

def strRBrackColon : String := "]:"

def strPercent : String := "%"

def strNone : String := "None"

def strSomeL : String := "Some("

def strSomeR : String := ")"

/-- Join a list of strings with a separator. -/
def joinSep (sep : String) : List String → String
  | [] => strEmpty
  | [x] => x
  | x :: xs => x ++ sep ++ joinSep sep xs

/-- Lowercase hexadecimal rendering of a number, as std prints IPv6 segments. -/
def natToHex (n : Nat) : String :=
  String.mk (Nat.toDigits 16 n)

/-- Modelled from the spec: the `Display` text of a socket address is produced
by the standard library, which is not part of this repository. IPv4 prints
dotted octets and the port; IPv6 prints the segments in brackets, the scope id
when nonzero, and the port. `flowinfo` is never printed; the zero-run
compression of IPv6 text is omitted in this model. -/
def SocketAddr.display : SocketAddr → String
  | .v4 a => joinSep strDot (a.ip.map toString) ++ strColon ++ toString a.port
  | .v6 a =>
      strLBrack ++ joinSep strColon (a.ip.map natToHex) ++
        (if a.scopeId ≠ 0 then strPercent ++ toString a.scopeId else strEmpty) ++
        strRBrackColon ++ toString a.port

/-- The `Debug` text of `Option<SocketAddr>` used by the member ordering
(`format!` with the debug specifier in member.rs): `None`, or `Some(...)`
around the address text (modern Rust's `Debug` for `SocketAddr` delegates to
`Display`). -/
def fmtRemoteHost : Option SocketAddr → String
  | none => strNone
  | some a => strSomeL ++ a.display ++ strSomeR

/-- The per-node membership record (`ArtilleryMember` in member.rs).
`host_key` is the 16 `Uuid` bytes; `incarnation_number` is a `u64`, modelled
as a `Nat` holding values below `2 ^ 64`; `last_state_change` is the
`DateTime<Utc>` timestamp, modelled as an abstract instant on `Nat`. -/
structure ArtilleryMember where
  host_key : List Nat
  remote_host : Option SocketAddr
  incarnation_number : Nat
  member_state : ArtilleryMemberState
  last_state_change : Nat
  labels : List (String × String)
  metadata : List Nat
deriving DecidableEq

/-- `ArtilleryMember::set_state`: if the requested state differs from the
current one, store it and stamp `last_state_change` with the current time
(`Utc::now()`, passed explicitly as `now`); otherwise leave the record
untouched. -/
def set_state (m : ArtilleryMember) (state : ArtilleryMemberState) (now : Nat) :
    ArtilleryMember :=
  if m.member_state ≠ state then
    { m with member_state := state, last_state_change := now }
  else
    m

/-- `2 ^ 64`, the modulus of the `u64` incarnation counter. -/
def U64_MOD : Nat := 2 ^ 64

/-- `ArtilleryMember::reincarnate`: `self.incarnation_number += 1` on a `u64`,
so the increment wraps at `2 ^ 64` (release-build wrapping semantics; a debug
build panics at the same input instead). -/
def reincarnate (m : ArtilleryMember) : ArtilleryMember :=
  { m with incarnation_number := (m.incarnation_number + 1) % U64_MOD }

/-- `ArtilleryMember::member_by_changing_host`: a copy of the record with the
remote host replaced, every other field shared. -/
def member_by_changing_host (m : ArtilleryMember) (remote_host : SocketAddr) :
    ArtilleryMember :=
  { m with remote_host := some remote_host }

/-- The `lhs_overrides` match inside `most_uptodate_member_data` (member.rs),
written over exactly the four values the source destructures: the two states
and the two incarnation numbers. -/
def member_overrides :
    ArtilleryMemberState → Nat → ArtilleryMemberState → Nat → Bool
  | .Alive, i, .Suspect, j => decide (i > j)
  | .Alive, i, .Alive, j => decide (i > j)
  | .Suspect, i, .Suspect, j => decide (i > j)
  | .Suspect, i, .Alive, j => decide (i ≥ j)
  | .Down, _, .Alive, _ => true
  | .Down, _, .Suspect, _ => true
  | .Left, _, _, _ => true
  | _, _, _, _ => false

/-- `most_uptodate_member_data` (member.rs): keep `lhs` when its
state/incarnation pair overrides `rhs`'s, otherwise keep `rhs`. -/
def most_uptodate_member_data (lhs rhs : ArtilleryMember) : ArtilleryMember :=
  if member_overrides lhs.member_state lhs.incarnation_number
      rhs.member_state rhs.incarnation_number then
    lhs
  else
    rhs

/-- The decision table of spec §4.3, transcribed from the spec's words: the
rows in which `lhs` "overrides" (is kept); every other combination falls
through to `rhs`. -/
def spec_grants_override (ls : ArtilleryMemberState) (i : Nat)
    (rs : ArtilleryMemberState) (j : Nat) : Prop :=
  (ls = .Alive ∧ rs = .Suspect ∧ i > j) ∨
  (ls = .Alive ∧ rs = .Alive ∧ i > j) ∨
  (ls = .Suspect ∧ rs = .Suspect ∧ i > j) ∨
  (ls = .Suspect ∧ rs = .Alive ∧ i ≥ j) ∨
  (ls = .Down ∧ rs = .Alive) ∨
  (ls = .Down ∧ rs = .Suspect) ∨
  (ls = .Left)

instance (ls : ArtilleryMemberState) (i : Nat) (rs : ArtilleryMemberState)
    (j : Nat) : Decidable (spec_grants_override ls i rs j) := by
  unfold spec_grants_override
  infer_instance

/-- Three-way comparison on `Nat`, as Rust's derived tuple `Ord` applies to
the numeric components. -/
def cmpNat (a b : Nat) : Ordering :=
  if a < b then .lt else if a = b then .eq else .gt

/-- Lexicographic three-way comparison of byte lists: Rust's slice `Ord`, used
on the `Uuid` bytes and (through `strCmp`) on string contents. -/
def cmpBytes : List Nat → List Nat → Ordering
  | [], [] => .eq
  | [], _ :: _ => .lt
  | _ :: _, [] => .gt
  | x :: xs, y :: ys => (cmpNat x y).then (cmpBytes xs ys)

/-- Rust `str` ordering: lexicographic on the scalar values of the characters
(UTF-8 byte order coincides with code-point order). -/
def strCmp (a b : String) : Ordering :=
  cmpBytes (a.data.map Char.toNat) (b.data.map Char.toNat)

/-- The `PartialOrd`/`Ord` implementation for `ArtilleryMember` (member.rs):
lexicographic on the tuple (host key bytes, `Debug` text of the remote host,
incarnation number, state in declaration order). -/
def member_cmp (a b : ArtilleryMember) : Ordering :=
  (cmpBytes a.host_key b.host_key).then
    ((strCmp (fmtRemoteHost a.remote_host) (fmtRemoteHost b.remote_host)).then
      ((cmpNat a.incarnation_number b.incarnation_number).then
        (cmpNat a.member_state.rank b.member_state.rank)))

/-- The strict order induced by `member_cmp`. -/
def memberLt (a b : ArtilleryMember) : Prop :=
  member_cmp a b = Ordering.lt

/-- Modelled from the spec: `CONST_INFECTION_PORT` lives in `src/constants.rs`,
which is not among the provided sources; the spec says only "a well-known
protocol port". Its value does not affect any claim. -/
def CONST_INFECTION_PORT : Nat := 1337

/-- Modelled from the spec: `CONST_PACKET_SIZE` lives in `src/constants.rs`,
which is not among the provided sources; the spec calls it an
"implementation-specific constant". Its value does not affect any claim. -/
def CONST_PACKET_SIZE : Nat := 512

/-- `ClusterConfig` (cluster_config.rs). Durations are modelled in seconds. -/
structure ClusterConfig where
  cluster_key : List Nat
  ping_interval : Nat
  network_mtu : Nat
  ping_request_host_count : Nat
  ping_timeout : Nat
  listen_addr : SocketAddr
  labels : List (String × String)
  metadata : List Nat
deriving DecidableEq

/-- `Default for ClusterConfig` (cluster_config.rs) with the external address
resolution (`to_socket_addrs`, standard library) abstracted as the input:
`none` models a resolution error, whose `unwrap` panics; `some []` models an
iterator yielding no address, whose `next()` is `None` so the second `unwrap`
panics. A panic is modelled as the `none` result. On success the first
resolved address becomes `listen_addr`; `cluster_key` is the byte string
`default`. -/
def cluster_config_default_with (resolved : Option (List SocketAddr)) :
    Option ClusterConfig :=
  match resolved with
  | none => none
  | some [] => none
  | some (addr :: _) =>
      some { cluster_key := [100, 101, 102, 97, 117, 108, 116],
             ping_interval := 1,
             network_mtu := CONST_PACKET_SIZE,
             ping_request_host_count := 3,
             ping_timeout := 3,
             listen_addr := addr,
             labels := [],
             metadata := [] }

/-- Concrete member builder used by the closed instances below: no remote
host, timestamp 0, no metadata. -/
def mkM (hk : List Nat) (st : ArtilleryMemberState) (inc : Nat)
    (lbls : List (String × String)) : ArtilleryMember :=
  { host_key := hk, remote_host := none, incarnation_number := inc,
    member_state := st, last_state_change := 0, labels := lbls,
    metadata := [] }

def strRole : String := "role"

def strGossip : String := "gossip"

theorem then_lt_iff (o₁ o₂ : Ordering) :
    o₁.then o₂ = .lt ↔ o₁ = .lt ∨ (o₁ = .eq ∧ o₂ = .lt) := by
  cases o₁ <;> simp [Ordering.then]

theorem then_eq_iff (o₁ o₂ : Ordering) :
    o₁.then o₂ = .eq ↔ o₁ = .eq ∧ o₂ = .eq := by
  cases o₁ <;> simp [Ordering.then]

theorem then_swap (o₁ o₂ : Ordering) :
    (o₁.then o₂).swap = o₁.swap.then o₂.swap := by
  cases o₁ <;> rfl

theorem cmpNat_self (a : Nat) : cmpNat a a = .eq := by
  simp [cmpNat]

theorem cmpNat_eq_iff (a b : Nat) : cmpNat a b = .eq ↔ a = b := by
  unfold cmpNat
  split
  next h => simp; omega
  next h =>
    split
    next h2 => simp [h2]
    next h2 => simp; omega

theorem cmpNat_lt_iff (a b : Nat) : cmpNat a b = .lt ↔ a < b := by
  unfold cmpNat
  split
  next h => simp [h]
  next h =>
    split
    next h2 => simp; omega
    next h2 => simp; omega

theorem cmpNat_swap (a b : Nat) : cmpNat b a = (cmpNat a b).swap := by
  unfold cmpNat
  rcases Nat.lt_trichotomy a b with h | h | h
  · rw [if_neg (by omega), if_neg (by omega), if_pos h]
    rfl
  · rw [if_neg (by omega), if_pos h.symm, if_neg (by omega), if_pos h]
    rfl
  · rw [if_pos h, if_neg (by omega), if_neg (by omega)]
    rfl

theorem cmpNat_lt_trans (a b c : Nat) :
    cmpNat a b = .lt → cmpNat b c = .lt → cmpNat a c = .lt := by
  simp only [cmpNat_lt_iff]
  omega

theorem cmpBytes_self (l : List Nat) : cmpBytes l l = .eq := by
  induction l with
  | nil => rfl
  | cons x xs ih => simp [cmpBytes, cmpNat_self, Ordering.then, ih]

theorem cmpBytes_eq_iff (l m : List Nat) : cmpBytes l m = .eq ↔ l = m := by
  induction l generalizing m with
  | nil => cases m <;> simp [cmpBytes]
  | cons x xs ih =>
    cases m with
    | nil => simp [cmpBytes]
    | cons y ys => simp [cmpBytes, then_eq_iff, cmpNat_eq_iff, ih]

theorem cmpBytes_swap (l m : List Nat) : cmpBytes m l = (cmpBytes l m).swap := by
  induction l generalizing m with
  | nil => cases m <;> rfl
  | cons x xs ih =>
    cases m with
    | nil => rfl
    | cons y ys => simp only [cmpBytes, then_swap, cmpNat_swap x y, ih ys]

theorem cmpBytes_lt_trans (a b c : List Nat) :
    cmpBytes a b = .lt → cmpBytes b c = .lt → cmpBytes a c = .lt := by
  induction a generalizing b c with
  | nil =>
    intro h1 h2
    cases b with
    | nil => simp [cmpBytes] at h1
    | cons y ys =>
      cases c with
      | nil => simp [cmpBytes] at h2
      | cons z zs => rfl
  | cons x xs ih =>
    intro h1 h2
    cases b with
    | nil => simp [cmpBytes] at h1
    | cons y ys =>
      cases c with
      | nil => simp [cmpBytes] at h2
      | cons z zs =>
        simp only [cmpBytes, then_lt_iff, cmpNat_eq_iff] at h1 h2 ⊢
        rcases h1 with h1 | ⟨e1, h1⟩
        · rcases h2 with h2 | ⟨e2, h2⟩
          · exact Or.inl (cmpNat_lt_trans x y z h1 h2)
          · exact Or.inl (e2 ▸ h1)
        · rcases h2 with h2 | ⟨e2, h2⟩
          · refine Or.inl ?_
            rw [e1]
            exact h2
          · exact Or.inr ⟨e1.trans e2, ih ys zs h1 h2⟩

theorem char_toNat_injective : Function.Injective Char.toNat := by
  intro a b h
  exact Char.ext (UInt32.ext h)

theorem strCmp_eq_iff (a b : String) : strCmp a b = .eq ↔ a = b := by
  unfold strCmp
  rw [cmpBytes_eq_iff]
  constructor
  · intro h
    exact String.ext (List.map_injective_iff.mpr char_toNat_injective h)
  · intro h
    rw [h]

theorem strCmp_swap (a b : String) : strCmp b a = (strCmp a b).swap := by
  unfold strCmp
  exact cmpBytes_swap _ _

theorem strCmp_lt_trans (a b c : String) :
    strCmp a b = .lt → strCmp b c = .lt → strCmp a c = .lt := by
  unfold strCmp
  exact cmpBytes_lt_trans _ _ _

theorem rank_eq_iff (s t : ArtilleryMemberState) : s.rank = t.rank ↔ s = t := by
  cases s <;> cases t <;> simp [ArtilleryMemberState.rank]

theorem member_cmp_eq_iff (a b : ArtilleryMember) :
    member_cmp a b = .eq ↔
      (a.host_key = b.host_key ∧
       fmtRemoteHost a.remote_host = fmtRemoteHost b.remote_host ∧
       a.incarnation_number = b.incarnation_number ∧
       a.member_state = b.member_state) := by
  unfold member_cmp
  simp [then_eq_iff, cmpBytes_eq_iff, strCmp_eq_iff, cmpNat_eq_iff, rank_eq_iff]

theorem member_cmp_self (a : ArtilleryMember) : member_cmp a a = .eq := by
  simp [member_cmp_eq_iff]

theorem member_cmp_swap (a b : ArtilleryMember) :
    member_cmp b a = (member_cmp a b).swap := by
  unfold member_cmp
  rw [then_swap, then_swap, then_swap,
    cmpBytes_swap a.host_key b.host_key,
    strCmp_swap (fmtRemoteHost a.remote_host) (fmtRemoteHost b.remote_host),
    cmpNat_swap a.incarnation_number b.incarnation_number,
    cmpNat_swap a.member_state.rank b.member_state.rank]

theorem member_cmp_lt_trans (a b c : ArtilleryMember) :
    member_cmp a b = .lt → member_cmp b c = .lt → member_cmp a c = .lt := by
  unfold member_cmp
  intro h1 h2
  simp only [then_lt_iff, cmpBytes_eq_iff, strCmp_eq_iff, cmpNat_eq_iff,
    rank_eq_iff] at h1 h2 ⊢
  rcases h1 with h1 | ⟨e1, h1⟩
  · rcases h2 with h2 | ⟨e2, h2⟩
    · exact Or.inl (cmpBytes_lt_trans _ _ _ h1 h2)
    · exact Or.inl (e2 ▸ h1)
  · rcases h2 with h2 | ⟨e2, h2⟩
    · refine Or.inl ?_
      rw [e1]
      exact h2
    · refine Or.inr ⟨e1.trans e2, ?_⟩
      rcases h1 with h1 | ⟨f1, h1⟩
      · rcases h2 with h2 | ⟨f2, h2⟩
        · exact Or.inl (strCmp_lt_trans _ _ _ h1 h2)
        · exact Or.inl (f2 ▸ h1)
      · rcases h2 with h2 | ⟨f2, h2⟩
        · refine Or.inl ?_
          rw [f1]
          exact h2
        · refine Or.inr ⟨f1.trans f2, ?_⟩
          rcases h1 with h1 | ⟨g1, h1⟩
          · rcases h2 with h2 | ⟨g2, h2⟩
            · exact Or.inl (cmpNat_lt_trans _ _ _ h1 h2)
            · exact Or.inl (g2 ▸ h1)
          · rcases h2 with h2 | ⟨g2, h2⟩
            · refine Or.inl ?_
              rw [g1]
              exact h2
            · exact Or.inr ⟨g1.trans g2, cmpNat_lt_trans _ _ _ h1 h2⟩

theorem member_overrides_iff_spec (ls : ArtilleryMemberState) (i : Nat)
    (rs : ArtilleryMemberState) (j : Nat) :
    member_overrides ls i rs j = true ↔ spec_grants_override ls i rs j := by
  cases ls <;> cases rs <;> simp [member_overrides, spec_grants_override]

/-- Claim C1: `most_uptodate_member_data lhs rhs` keeps `lhs` exactly when the
spec's decision table grants `lhs` override — (Alive,i) vs (Suspect,j) iff
i > j; (Alive,i) vs (Alive,j) iff i > j; (Suspect,i) vs (Suspect,j) iff i > j;
(Suspect,i) vs (Alive,j) iff i ≥ j; (Down,_) vs (Alive,_) always; (Down,_) vs
(Suspect,_) always; (Left,_) vs anything always — and keeps `rhs` in every
other combination; in particular the five concrete cases of spec §8 hold,
including that (Down,5) vs (Down,5) returns the second argument. -/
theorem claim_C1 :
    (∀ lhs rhs : ArtilleryMember,
      most_uptodate_member_data lhs rhs =
        if spec_grants_override lhs.member_state lhs.incarnation_number
            rhs.member_state rhs.incarnation_number then lhs else rhs) ∧
    most_uptodate_member_data (mkM [1] .Alive 5 []) (mkM [2] .Suspect 5 []) =
      mkM [2] .Suspect 5 [] ∧
    most_uptodate_member_data (mkM [1] .Suspect 5 []) (mkM [2] .Alive 5 []) =
      mkM [1] .Suspect 5 [] ∧
    most_uptodate_member_data (mkM [1] .Down 1 []) (mkM [2] .Alive 99 []) =
      mkM [1] .Down 1 [] ∧
    most_uptodate_member_data (mkM [1] .Left 0 []) (mkM [2] .Alive 1000 []) =
      mkM [1] .Left 0 [] ∧
    most_uptodate_member_data (mkM [1] .Down 5 []) (mkM [2] .Down 5 []) =
      mkM [2] .Down 5 [] := by
  refine ⟨?_, by decide, by decide, by decide, by decide, by decide⟩
  intro lhs rhs
  cases hb : member_overrides lhs.member_state lhs.incarnation_number
      rhs.member_state rhs.incarnation_number with
  | false =>
    have hs : ¬ spec_grants_override lhs.member_state lhs.incarnation_number
        rhs.member_state rhs.incarnation_number := by
      rw [← member_overrides_iff_spec, hb]
      simp
    simp [most_uptodate_member_data, hb, hs]
  | true =>
    have hs : spec_grants_override lhs.member_state lhs.incarnation_number
        rhs.member_state rhs.incarnation_number :=
      (member_overrides_iff_spec _ _ _ _).mp hb
    simp [most_uptodate_member_data, hb, hs]

/-- Claim C2 counterexample: reconciliation is not symmetric in outcome — two
distinct Down records at equal incarnation are reconciled to the second
argument in both orders, so the two call orders select different records
(this is exactly the tie-break the spec itself documents in §8). -/
theorem claim_C2_cex :
    most_uptodate_member_data (mkM [1] .Down 5 []) (mkM [2] .Down 5 []) =
      mkM [2] .Down 5 [] ∧
    most_uptodate_member_data (mkM [2] .Down 5 []) (mkM [1] .Down 5 []) =
      mkM [1] .Down 5 [] ∧
    (mkM [1] .Down 5 [] : ArtilleryMember) ≠ mkM [2] .Down 5 [] := by
  refine ⟨by decide, by decide, by decide⟩

/-- Claim C2 amended: reconciliation is symmetric in outcome for every pair of
records except the documented argument-order tie-breaks — the two records
share the state Alive or the state Suspect at equal incarnation, or both are
Down, or both are Left; outside those combinations
`most_uptodate_member_data a b = most_uptodate_member_data b a`. -/
theorem claim_C2_amended (a b : ArtilleryMember)
    (h : ¬ ((a.member_state = b.member_state ∧
             a.incarnation_number = b.incarnation_number ∧
             (a.member_state = ArtilleryMemberState.Alive ∨
              a.member_state = ArtilleryMemberState.Suspect)) ∨
            (a.member_state = ArtilleryMemberState.Down ∧
             b.member_state = ArtilleryMemberState.Down) ∨
            (a.member_state = ArtilleryMemberState.Left ∧
             b.member_state = ArtilleryMemberState.Left))) :
    most_uptodate_member_data a b = most_uptodate_member_data b a := by
  cases ha : a.member_state <;> cases hb : b.member_state <;>
    simp [ha, hb] at h ⊢ <;>
    simp [most_uptodate_member_data, member_overrides, ha, hb] <;>
    (try split) <;> (try split) <;> first | rfl | (exfalso; omega)

/-- Claim C2 witness: a concrete symmetric pair (Down vs Alive). -/
theorem claim_C2_witness :
    most_uptodate_member_data (mkM [1] .Down 2 []) (mkM [2] .Alive 9 []) =
    most_uptodate_member_data (mkM [2] .Alive 9 []) (mkM [1] .Down 2 []) :=
  claim_C2_amended (mkM [1] .Down 2 []) (mkM [2] .Alive 9 []) (by decide)

/-- Claim C3: which side reconciliation keeps depends only on the two states
and the two incarnation numbers — two calls whose arguments agree on those
four values return the same side, whatever the other fields are. -/
theorem claim_C3 (a b a' b' : ArtilleryMember)
    (h1 : a.member_state = a'.member_state)
    (h2 : a.incarnation_number = a'.incarnation_number)
    (h3 : b.member_state = b'.member_state)
    (h4 : b.incarnation_number = b'.incarnation_number) :
    (most_uptodate_member_data a b = a ∧ most_uptodate_member_data a' b' = a') ∨
    (most_uptodate_member_data a b = b ∧ most_uptodate_member_data a' b' = b') := by
  unfold most_uptodate_member_data
  rw [h1, h2, h3, h4]
  cases hb : member_overrides a'.member_state a'.incarnation_number
      b'.member_state b'.incarnation_number <;> simp

/-- Claim C3 witness: two concrete calls agreeing on states and incarnations
(but not on host keys or labels) return the same side. -/
theorem claim_C3_witness :
    (most_uptodate_member_data (mkM [1] .Suspect 4 []) (mkM [2] .Alive 4 []) =
        mkM [1] .Suspect 4 [] ∧
     most_uptodate_member_data (mkM [3] .Suspect 4 [(strRole, strGossip)])
        (mkM [4] .Alive 4 []) = mkM [3] .Suspect 4 [(strRole, strGossip)]) ∨
    (most_uptodate_member_data (mkM [1] .Suspect 4 []) (mkM [2] .Alive 4 []) =
        mkM [2] .Alive 4 [] ∧
     most_uptodate_member_data (mkM [3] .Suspect 4 [(strRole, strGossip)])
        (mkM [4] .Alive 4 []) = mkM [4] .Alive 4 []) :=
  claim_C3 (mkM [1] .Suspect 4 []) (mkM [2] .Alive 4 [])
    (mkM [3] .Suspect 4 [(strRole, strGossip)]) (mkM [4] .Alive 4 [])
    rfl rfl rfl rfl

/-- Claim C4 counterexample: the Left state is not terminal under `set_state`
— calling `set_state` with Alive on a Left member changes the state to Alive,
which is not Left. -/
theorem claim_C4_cex :
    (set_state (mkM [0] .Left 0 []) .Alive 7).member_state =
      ArtilleryMemberState.Alive ∧
    ArtilleryMemberState.Alive ≠ ArtilleryMemberState.Left := by
  refine ⟨by decide, by decide⟩

/-- Claim C4 amended: Left is terminal under reconciliation — when either
argument is in state Left the record kept is in state Left, regardless of the
incarnation numbers; but `set_state` is an unguarded primitive: called on a
Left member with any different state it moves the member out of Left, so
never doing that is the external caller's obligation. -/
theorem claim_C4_amended :
    (∀ a b : ArtilleryMember,
      a.member_state = ArtilleryMemberState.Left ∨
        b.member_state = ArtilleryMemberState.Left →
      (most_uptodate_member_data a b).member_state =
        ArtilleryMemberState.Left) ∧
    (∀ (m : ArtilleryMember) (s : ArtilleryMemberState) (now : Nat),
      m.member_state = ArtilleryMemberState.Left →
      s ≠ ArtilleryMemberState.Left →
      (set_state m s now).member_state = s) := by
  constructor
  · intro a b h
    rcases h with hL | hR
    · simp [most_uptodate_member_data, member_overrides, hL]
    · cases ha : a.member_state <;>
        simp [most_uptodate_member_data, member_overrides, ha, hR]
  · intro m s now hm hs
    have hne : m.member_state ≠ s := by
      rw [hm]
      exact fun hc => hs hc.symm
    simp [set_state, hne]

/-- Claim C4 witness: a concrete Left record wins reconciliation against a
much newer Alive record. -/
theorem claim_C4_witness :
    (most_uptodate_member_data (mkM [1] .Left 0 [])
      (mkM [2] .Alive 1000 [])).member_state = ArtilleryMemberState.Left :=
  claim_C4_amended.1 (mkM [1] .Left 0 []) (mkM [2] .Alive 1000 [])
    (Or.inl (by decide))

/-- Claim C5: `set_state` updates `last_state_change` exactly when the
requested state differs from the current one — with the same state the whole
record is unchanged; with a different state the state becomes `s` and
`last_state_change` becomes the current time, which is never earlier than its
prior value provided the clock did not run backwards. -/
theorem claim_C5 (m : ArtilleryMember) (s : ArtilleryMemberState) (now : Nat) :
    (s = m.member_state → set_state m s now = m) ∧
    (s ≠ m.member_state →
      (set_state m s now).member_state = s ∧
      (set_state m s now).last_state_change = now) ∧
    (m.last_state_change ≤ now →
      m.last_state_change ≤ (set_state m s now).last_state_change) := by
  refine ⟨?_, ?_, ?_⟩
  · intro h
    simp [set_state, h]
  · intro h
    have hne : m.member_state ≠ s := fun hc => h hc.symm
    simp [set_state, hne]
  · intro h
    unfold set_state
    split
    · simpa using h
    · exact le_refl _

/-- Claim C5 witness: a same-state call is a no-op on a concrete record, and a
different-state call stamps the concrete time. -/
theorem claim_C5_witness :
    set_state (mkM [3] .Alive 1 []) .Alive 9 = mkM [3] .Alive 1 [] ∧
    (set_state (mkM [3] .Alive 1 []) .Suspect 9).last_state_change = 9 :=
  ⟨(claim_C5 (mkM [3] .Alive 1 []) .Alive 9).1 rfl,
   ((claim_C5 (mkM [3] .Alive 1 []) .Suspect 9).2.1 (by decide)).2⟩

/-- Claim C6 counterexample: at the maximum `u64` incarnation the increment in
`reincarnate` overflows (wrapping to 0 in a release build), so the incarnation
number after the call is not strictly greater than before. -/
theorem claim_C6_cex :
    ¬ ((mkM [0] .Alive (U64_MOD - 1) []).incarnation_number <
        (reincarnate (mkM [0] .Alive (U64_MOD - 1) [])).incarnation_number) := by
  decide

/-- Claim C6 amended: provided the incarnation counter does not overflow its
`u64` range, `reincarnate` makes it strictly greater; every other field is
unchanged unconditionally; and the incarnation number is untouched by
`set_state` and by `member_by_changing_host`. -/
theorem claim_C6_amended (m : ArtilleryMember) :
    (m.incarnation_number + 1 < U64_MOD →
      m.incarnation_number < (reincarnate m).incarnation_number) ∧
    (reincarnate m).host_key = m.host_key ∧
    (reincarnate m).remote_host = m.remote_host ∧
    (reincarnate m).member_state = m.member_state ∧
    (reincarnate m).last_state_change = m.last_state_change ∧
    (reincarnate m).labels = m.labels ∧
    (reincarnate m).metadata = m.metadata ∧
    (∀ (s : ArtilleryMemberState) (now : Nat),
      (set_state m s now).incarnation_number = m.incarnation_number) ∧
    (∀ rh : SocketAddr,
      (member_by_changing_host m rh).incarnation_number =
        m.incarnation_number) := by
  refine ⟨?_, rfl, rfl, rfl, rfl, rfl, rfl, ?_, fun rh => rfl⟩
  · intro h
    show m.incarnation_number < (m.incarnation_number + 1) % U64_MOD
    rw [Nat.mod_eq_of_lt h]
    omega
  · intro s now
    unfold set_state
    split <;> rfl

/-- Claim C6 witness: a concrete non-overflowing reincarnation strictly
increases the incarnation number. -/
theorem claim_C6_witness :
    (mkM [4] .Alive 7 []).incarnation_number <
      (reincarnate (mkM [4] .Alive 7 [])).incarnation_number :=
  (claim_C6_amended (mkM [4] .Alive 7 [])).1 (by decide)

/-- Claim C7 counterexample: ordering-equality is not field-wise equality up
to address display — two records with literally identical remote addresses
(both absent) that differ only in their labels still compare Equal, so the
address display form is not the only divergence. -/
theorem claim_C7_cex :
    member_cmp (mkM [1] .Alive 5 [(strRole, strGossip)]) (mkM [1] .Alive 5 []) =
      Ordering.eq ∧
    (mkM [1] .Alive 5 [(strRole, strGossip)] : ArtilleryMember) ≠
      mkM [1] .Alive 5 [] ∧
    (mkM [1] .Alive 5 [(strRole, strGossip)]).remote_host =
      (mkM [1] .Alive 5 []).remote_host := by
  refine ⟨by decide, by decide, by decide⟩

/-- Claim C7 amended: two records compare Equal under the total ordering iff
they agree on the four components the comparison inspects — host key bytes,
the display form of the remote address, the incarnation number, and the state
— so besides the address-display coarseness, `last_state_change`, labels and
metadata are also ignored. -/
theorem claim_C7_amended (a b : ArtilleryMember) :
    member_cmp a b = Ordering.eq ↔
      (a.host_key = b.host_key ∧
       fmtRemoteHost a.remote_host = fmtRemoteHost b.remote_host ∧
       a.incarnation_number = b.incarnation_number ∧
       a.member_state = b.member_state) :=
  member_cmp_eq_iff a b

/-- Claim C8: the comparison over Members is lexicographic on (host key
bytes, remote-address text, incarnation, state rank), and its strict part is
irreflexive, transitive, and total on records with distinct host keys. -/
theorem claim_C8 :
    (∀ a : ArtilleryMember, ¬ memberLt a a) ∧
    (∀ a b c : ArtilleryMember, memberLt a b → memberLt b c → memberLt a c) ∧
    (∀ a b : ArtilleryMember,
      a.host_key ≠ b.host_key → memberLt a b ∨ memberLt b a) := by
  refine ⟨?_, ?_, ?_⟩
  · intro a h
    rw [memberLt, member_cmp_self] at h
    exact absurd h (by simp)
  · intro a b c h1 h2
    exact member_cmp_lt_trans a b c h1 h2
  · intro a b h
    have hne : member_cmp a b ≠ Ordering.eq := fun hc =>
      h ((member_cmp_eq_iff a b).mp hc).1
    cases hcmp : member_cmp a b with
    | lt => exact Or.inl hcmp
    | eq => exact absurd hcmp hne
    | gt =>
      refine Or.inr ?_
      show member_cmp b a = Ordering.lt
      rw [member_cmp_swap, hcmp]
      rfl

/-- Claim C8 witness: two concrete records with distinct host keys are
strictly comparable. -/
theorem claim_C8_witness :
    memberLt (mkM [1] .Alive 0 []) (mkM [2] .Alive 0 []) ∨
    memberLt (mkM [2] .Alive 0 []) (mkM [1] .Alive 0 []) :=
  claim_C8.2.2 (mkM [1] .Alive 0 []) (mkM [2] .Alive 0 []) (by decide)

/-- Claim C9: the `Default` construction of `ClusterConfig` fails (the
`unwrap` chain panics) exactly when the listen-address specification is
unresolvable or resolves to zero socket addresses; on success the listen
address is the first resolved address, never a silently substituted one. -/
theorem claim_C9 :
    cluster_config_default_with none = none ∧
    cluster_config_default_with (some []) = none ∧
    (∀ (addr : SocketAddr) (rest : List SocketAddr),
      ∃ c : ClusterConfig,
        cluster_config_default_with (some (addr :: rest)) = some c ∧
        c.listen_addr = addr) := by
  refine ⟨rfl, rfl, ?_⟩
  intro addr rest
  exact ⟨_, rfl, rfl⟩

/-- Claim C10: the total ordering inspects only the host key bytes, the
printed remote address, the incarnation number and the state — records
agreeing on those four compare Equal whatever their `last_state_change`,
labels or metadata, and there are records that compare Equal without being
equal, so ordering-equality is strictly coarser than field-wise equality. -/
theorem claim_C10 :
    (∀ a b : ArtilleryMember,
      a.host_key = b.host_key →
      fmtRemoteHost a.remote_host = fmtRemoteHost b.remote_host →
      a.incarnation_number = b.incarnation_number →
      a.member_state = b.member_state →
      member_cmp a b = Ordering.eq) ∧
    member_cmp (mkM [7] .Suspect 3 [(strRole, strGossip)])
      { mkM [7] .Suspect 3 [] with last_state_change := 42, metadata := [9] } =
      Ordering.eq ∧
    (mkM [7] .Suspect 3 [(strRole, strGossip)] : ArtilleryMember) ≠
      { mkM [7] .Suspect 3 [] with last_state_change := 42, metadata := [9] } := by
  refine ⟨?_, by decide, by decide⟩
  intro a b h1 h2 h3 h4
  exact (member_cmp_eq_iff a b).mpr ⟨h1, h2, h3, h4⟩

/-- Claim C10 witness: two concrete records differing only in the timestamp
compare Equal. -/
theorem claim_C10_witness :
    member_cmp (mkM [8] .Down 1 [])
      { mkM [8] .Down 1 [] with last_state_change := 5 } = Ordering.eq :=
  claim_C10.1 (mkM [8] .Down 1 [])
    { mkM [8] .Down 1 [] with last_state_change := 5 } rfl rfl rfl rfl
